import Mathlib

/-!
Shallow embedding of the FlowMaker Pro X core engine (src/app.js):
grid snapping, the graph model (nodes and edges), the history manager
(undo stack, redo stack, capacity bound), the pointer interaction
handlers (drag, resize, connect) and the label-editing layer.

Coordinates are modelled as integers: the pointer events, the grid and
every at-rest model value of the claims are integer-valued, and on them
the JS number arithmetic of the code is exact integer arithmetic.
History snapshots in the code are JSON strings of the pair of
collections; since the serializer is injective on this data, snapshots
are modelled as the Diagram values themselves and string comparison as
structural equality.
-/

/-- GRID_SIZE constant from src/app.js. -/
def GRID_SIZE : ℤ := 10

/-- HISTORY_LIMIT constant from src/app.js. -/
def HISTORY_LIMIT : Nat := 50

/-- snap from src/app.js: Math.round(val / GRID_SIZE) * GRID_SIZE.
JS Math.round rounds half-fractions toward positive infinity, so
Math.round (val / g) equals the floor of val / g + 1 / 2, which for an
integer val and positive integer g is the floor division of
2 * val + g by 2 * g. -/
def snap (val : ℤ) : ℤ :=
  ((2 * val + GRID_SIZE).fdiv (2 * GRID_SIZE)) * GRID_SIZE

/-- getSVGCoords from src/app.js at zoom factor 1 (the zoom the claims
quantify over): (clientX - rect.left) / zoom and
(clientY - rect.top) / zoom with the division by 1 carried out. -/
def getSVGCoords (clientX clientY rectLeft rectTop : ℤ) : ℤ × ℤ :=
  (clientX - rectLeft, clientY - rectTop)

/-- A node of the diagram, as built by createNode in src/app.js. -/
structure Node where
  id : String
  type : String
  x : ℤ
  y : ℤ
  width : ℤ
  height : ℤ
  label : String
deriving DecidableEq

/-- An edge of the diagram, as built by finalizeConnection in src/app.js. -/
structure Edge where
  id : String
  source : String
  target : String
  label : String
deriving DecidableEq

/-- The nodes and edges collections of src/app.js; this pair is what
saveHistory serializes into one undo-stack entry. -/
structure Diagram where
  nodes : List Node
  edges : List Edge
deriving DecidableEq

/-- The empty diagram (used only as an Option default under guards that
make it unreachable). -/
def emptyDiagram : Diagram := { nodes := [], edges := [] }

/-- The label-defaulting chain inside createNode in src/app.js (the
nested conditional expression assigned when the label argument is falsy).
The last branch is type.charAt(0).toUpperCase() + type.slice(1). -/
def capitalize (t : String) : String :=
  match t.data with
  | [] => ""
  | c :: cs => String.mk (c.toUpper :: cs)

/-- Default label per node type, from createNode in src/app.js. -/
def defaultLabel (type : String) : String :=
  if type = "lead-source" then "Trigger"
  else if type = "database" then "Database"
  else if type = "api" then "API Request"
  else if type = "user" then "User Input"
  else if type = "document" then "Document"
  else if type = "cloud" then "Cloud"
  else capitalize type

/-- createNode from src/app.js.  The id (node-Date.now() in the code) is
passed in; the label argument is Option String, none standing for an
absent argument and some "" for an empty string, both falsy in JS. -/
def createNode (type : String) (x y : ℤ) (label : Option String)
    (id : String) : Node :=
  let wh : ℤ × ℤ :=
    if type = "decision" then (160, 120)
    else if type = "lead-source" then (180, 50)
    else if type = "database" then (160, 70)
    else if type = "api" then (180, 50)
    else if type = "user" then (140, 60)
    else if type = "document" then (140, 80)
    else if type = "cloud" then (160, 100)
    else (160, 60)
  let resolvedLabel :=
    match label with
    | none => defaultLabel type
    | some l => if l = "" then defaultLabel type else l
  { id := id, type := type, x := snap x, y := snap y,
    width := wh.1, height := wh.2, label := resolvedLabel }

/-- deleteSelected from src/app.js, restricted to its effect on the
nodes and edges collections.  The argument is state.selectedId (none for
null, in which case the function returns early).  findIndex followed by
splice removes the first element matching the id, modelled by eraseP;
the edge cascade is the filter keeping edges not incident to the id. -/
def deleteSelected (sel : Option String) (d : Diagram) : Diagram :=
  match sel with
  | none => d
  | some sid =>
    if d.nodes.any (fun n => n.id == sid) then
      { d with nodes := d.nodes.eraseP (fun n => n.id == sid),
               edges := d.edges.filter
                 (fun e => e.source != sid && e.target != sid) }
    else if d.edges.any (fun e => e.id == sid) then
      { d with edges := d.edges.eraseP (fun e => e.id == sid) }
    else d

/-- The history-related state of src/app.js: the live diagram plus the
two stacks.  Stack entries are Diagrams standing for their JSON strings;
index 0 is the oldest entry and the last element is the top, matching
the JS arrays used with push/pop at the end and shift at the front. -/
structure HistoryState where
  diagram : Diagram
  historyStack : List Diagram
  redoStack : List Diagram
deriving DecidableEq

/-- saveHistory from src/app.js, with a Bool recording whether the
branch that pushes and calls persistToBrowser was taken. -/
def saveHistoryP (s : HistoryState) : HistoryState × Bool :=
  if s.historyStack.length = 0 ∨ s.historyStack.getLast? ≠ some s.diagram
  then
    let pushed := s.historyStack ++ [s.diagram]
    let bounded := if HISTORY_LIMIT < pushed.length then pushed.tail else pushed
    ({ s with historyStack := bounded, redoStack := [] }, true)
  else (s, false)

/-- saveHistory from src/app.js (state effect only). -/
def saveHistory (s : HistoryState) : HistoryState := (saveHistoryP s).1

/-- undo from src/app.js: guard historyStack.length <= 1, pop the top
onto the redo stack, apply the new top. -/
def undo (s : HistoryState) : HistoryState :=
  if s.historyStack.length ≤ 1 then s
  else
    let popped := s.historyStack.getLast?.getD emptyDiagram
    let rest := s.historyStack.dropLast
    { diagram := rest.getLast?.getD emptyDiagram,
      historyStack := rest,
      redoStack := s.redoStack ++ [popped] }

/-- redo from src/app.js: guard on an empty redo stack, pop the next
snapshot, push the serialization of the current diagram onto the undo
stack, apply the popped snapshot. -/
def redo (s : HistoryState) : HistoryState :=
  if s.redoStack.isEmpty then s
  else
    { diagram := s.redoStack.getLast?.getD emptyDiagram,
      historyStack := s.historyStack ++ [s.diagram],
      redoStack := s.redoStack.dropLast }

/-- The history state right after init in src/app.js: a loaded or seeded
diagram followed by the initial saveHistory call on empty stacks. -/
def initState (d : Diagram) : HistoryState :=
  saveHistory { diagram := d, historyStack := [], redoStack := [] }

/-- A sequence of committed mutations: each step replaces the live
diagram (the net effect of a gesture or edit) and runs saveHistory. -/
def applyCommits (s : HistoryState) : List Diagram → HistoryState
  | [] => s
  | d :: ds => applyCommits (saveHistory { s with diagram := d }) ds

/-- History states reachable through the operations of src/app.js from
a freshly initialized editor: committed mutations, undo, redo. -/
inductive Reachable : HistoryState → Prop
  | init (d : Diagram) : Reachable (initState d)
  | mutateCommit (d : Diagram) {s : HistoryState} :
      Reachable s → Reachable (saveHistory { s with diagram := d })
  | undoStep {s : HistoryState} : Reachable s → Reachable (undo s)
  | redoStep {s : HistoryState} : Reachable s → Reachable (redo s)

/-- startDragging from src/app.js: the drag offset recorded at gesture
start, coords.x - node.x and coords.y - node.y. -/
def dragStartOffset (cx cy : ℤ) (n : Node) : ℤ × ℤ :=
  (cx - n.x, cy - n.y)

/-- The DRAGGING branch of the mousemove handler in src/app.js:
node.x = snap(coords.x - dragOffset.x), node.y likewise. -/
def dragMove (offX offY px py : ℤ) (n : Node) : Node :=
  { n with x := snap (px - offX), y := snap (py - offY) }

/-- The RESIZING branch of the mousemove handler in src/app.js:
width = Math.max(80, snap(coords.x - node.x)), height likewise with 40. -/
def resizeMove (px py : ℤ) (n : Node) : Node :=
  { n with width := max 80 (snap (px - n.x)),
           height := max 40 (snap (py - n.y)) }

/-- The hit predicate inside finalizeConnection in src/app.js: a node
other than the connect source whose bounding box strictly contains the
release point. -/
def connectHit (srcId : String) (px py : ℤ) (n : Node) : Bool :=
  n.id != srcId && decide (n.x < px) && decide (px < n.x + n.width)
    && decide (n.y < py) && decide (py < n.y + n.height)

/-- finalizeConnection from src/app.js, restricted to its effect on the
diagram.  nodes.find returns the first hit in insertion order; when it
hits, a fresh edge with empty label is pushed. -/
def finalizeConnection (src : Node) (px py : ℤ) (eid : String)
    (d : Diagram) : Diagram :=
  match d.nodes.find? (connectHit src.id px py) with
  | some t =>
      { d with edges := d.edges ++
          [{ id := eid, source := src.id, target := t.id, label := "" }] }
  | none => d

/-- The two kinds of editing session in src/app.js (state.editingItem.type). -/
inductive EditKind where
  | node
  | edge
deriving DecidableEq

/-- state.editingItem in src/app.js: the kind and id of the item under edit. -/
structure EditingItem where
  kind : EditKind
  id : String
deriving DecidableEq

/-- Assignment to the first list element satisfying a predicate, the
effect of Array.prototype.find followed by mutating the found object. -/
def updateFirst {α : Type} (p : α → Bool) (f : α → α) : List α → List α
  | [] => []
  | a :: as => if p a then f a :: as else a :: updateFirst p f as

/-- closeEditors from src/app.js, restricted to its model effect: if a
session is open and the referenced item still exists, write the active
editor's text into its label and run saveHistory; in every case the
session ends cleared (the returned Option EditingItem, always none). -/
def closeEditors (editing : Option EditingItem) (text : String)
    (s : HistoryState) : HistoryState × Option EditingItem :=
  match editing with
  | none => (s, none)
  | some it =>
    match it.kind with
    | EditKind.node =>
      if s.diagram.nodes.any (fun n => n.id == it.id) then
        let nodes1 := updateFirst (fun n => n.id == it.id)
          (fun n => { n with label := text }) s.diagram.nodes
        (saveHistory { s with diagram := { s.diagram with nodes := nodes1 } },
          none)
      else (s, none)
    | EditKind.edge =>
      if s.diagram.edges.any (fun e => e.id == it.id) then
        let edges1 := updateFirst (fun e => e.id == it.id)
          (fun e => { e with label := text }) s.diagram.edges
        (saveHistory { s with diagram := { s.diagram with edges := edges1 } },
          none)
      else (s, none)

/-! Shared helper lemmas. -/

/-- After any saveHistory the live diagram is unchanged. -/
theorem saveHistory_diagram (s : HistoryState) :
    (saveHistory s).diagram = s.diagram := by
  unfold saveHistory saveHistoryP
  split <;> rfl

/-- After any saveHistory the top of the undo stack is the live diagram. -/
theorem saveHistory_top (s : HistoryState) :
    (saveHistory s).historyStack.getLast? = some s.diagram := by
  unfold saveHistory saveHistoryP
  split
  · show (if HISTORY_LIMIT < (s.historyStack ++ [s.diagram]).length
        then (s.historyStack ++ [s.diagram]).tail
        else (s.historyStack ++ [s.diagram])).getLast? = some s.diagram
    split
    · rename_i hlen
      cases hl : s.historyStack with
      | nil => rw [hl] at hlen; simp [HISTORY_LIMIT] at hlen
      | cons a as => simp [List.getLast?_concat]
    · exact List.getLast?_concat _
  · rename_i hcond
    push_neg at hcond
    exact hcond.2

/-- saveHistory takes its no-op branch exactly when the top of the undo
stack already equals the live diagram. -/
theorem saveHistoryP_no_push (s : HistoryState)
    (h : s.historyStack.getLast? = some s.diagram) :
    saveHistoryP s = (s, false) := by
  unfold saveHistoryP
  rw [if_neg]
  push_neg
  refine ⟨?_, h⟩
  intro hlen
  rw [List.length_eq_zero.mp hlen] at h
  simp at h

/-- saveHistory keeps the undo stack within the capacity bound. -/
theorem saveHistory_length_le (s : HistoryState)
    (h : s.historyStack.length ≤ HISTORY_LIMIT) :
    (saveHistory s).historyStack.length ≤ HISTORY_LIMIT := by
  unfold saveHistory saveHistoryP
  split
  · show (if HISTORY_LIMIT < (s.historyStack ++ [s.diagram]).length
        then (s.historyStack ++ [s.diagram]).tail
        else (s.historyStack ++ [s.diagram])).length ≤ HISTORY_LIMIT
    split <;> rename_i hlen <;> simp at hlen ⊢ <;> omega
  · exact h

/-- List.find? returns the first element satisfying the predicate. -/
theorem find?_first {α : Type} (p : α → Bool) (l : List α) (a : α)
    (h : l.find? p = some a) :
    ∃ l₁ l₂, l = l₁ ++ a :: l₂ ∧ ∀ b ∈ l₁, p b = false := by
  induction l with
  | nil => simp [List.find?] at h
  | cons x xs ih =>
    by_cases hx : p x = true
    · rw [List.find?_cons_of_pos _ hx] at h
      obtain rfl : x = a := by injection h
      exact ⟨[], xs, rfl, by simp⟩
    · rw [List.find?_cons_of_neg _ hx] at h
      obtain ⟨l₁, l₂, rfl, hl₁⟩ := ih h
      refine ⟨x :: l₁, l₂, rfl, ?_⟩
      intro b hb
      rcases List.mem_cons.mp hb with rfl | hb
      · simpa using hx
      · exact hl₁ b hb

/-- Updating the first match of a predicate-preserving map commutes
with List.find?. -/
theorem find?_updateFirst {α : Type} (p : α → Bool) (f : α → α)
    (hf : ∀ a, p a = true → p (f a) = true) (l : List α) :
    (updateFirst p f l).find? p = (l.find? p).map f := by
  induction l with
  | nil => rfl
  | cons a as ih =>
    by_cases h : p a = true
    · rw [updateFirst, if_pos h, List.find?_cons_of_pos _ (hf a h),
        List.find?_cons_of_pos _ h, Option.map_some']
    · rw [updateFirst, if_neg h, List.find?_cons_of_neg _ h,
        List.find?_cons_of_neg _ h, ih]

/-! Concrete fixtures for witnesses and counterexamples. -/

/-- A plain process node used by concrete witnesses. -/
def nodeA : Node :=
  { id := "node-0", type := "process", x := 0, y := 0,
    width := 160, height := 60, label := "A" }

/-- A second plain node used by concrete witnesses. -/
def nodeB : Node :=
  { id := "node-1", type := "process", x := 200, y := 0,
    width := 160, height := 60, label := "B" }

/-- A third plain node used by concrete witnesses. -/
def nodeC : Node :=
  { id := "node-2", type := "process", x := 400, y := 0,
    width := 160, height := 60, label := "C" }

/-- One-node diagram. -/
def diagA : Diagram := { nodes := [nodeA], edges := [] }

/-- Two-node diagram. -/
def diagAB : Diagram := { nodes := [nodeA, nodeB], edges := [] }

/-- Three-node diagram. -/
def diagABC : Diagram := { nodes := [nodeA, nodeB, nodeC], edges := [] }

/-- C7: during a resize, every pointer-move sets the target node's width
and height to max(minimum, snap(pointerModelPos − nodeOrigin)) for the
respective axis, so width and height never fall below the minimums
(80 and 40) after any resize move. -/
theorem resize_move_min (n : Node) (px py : ℤ) :
    (resizeMove px py n).width = max 80 (snap (px - n.x)) ∧
    (resizeMove px py n).height = max 40 (snap (py - n.y)) ∧
    80 ≤ (resizeMove px py n).width ∧ 40 ≤ (resizeMove px py n).height :=
  ⟨rfl, rfl, le_max_left _ _, le_max_left _ _⟩

/-- Edge from nodeA to nodeB. -/
def edgeAB : Edge :=
  { id := "edge-1", source := "node-0", target := "node-1", label := "" }

/-- Edge from nodeB to nodeA. -/
def edgeBA : Edge :=
  { id := "edge-2", source := "node-1", target := "node-0", label := "yes" }

/-- Self-edge on nodeA. -/
def edgeAA : Edge :=
  { id := "edge-3", source := "node-0", target := "node-0", label := "no" }

/-- Two nodes with three edges, two of them incident to nodeB. -/
def diagC2 : Diagram :=
  { nodes := [nodeA, nodeB], edges := [edgeAB, edgeBA, edgeAA] }

/-- C2: for every diagram and every node id present in it, deleting that
node removes the node (one fewer node remains) and every edge whose
source or target equals that id, so the resulting edge collection
contains no edge referencing the deleted node. -/
theorem deleteNode_cascade (d : Diagram) (sid : String)
    (h : d.nodes.any (fun n => n.id == sid) = true) :
    (∀ e ∈ (deleteSelected (some sid) d).edges,
        e.source ≠ sid ∧ e.target ≠ sid) ∧
    (deleteSelected (some sid) d).nodes.length = d.nodes.length - 1 := by
  have hd : deleteSelected (some sid) d =
      { d with nodes := d.nodes.eraseP (fun n => n.id == sid),
               edges := d.edges.filter
                 (fun e => e.source != sid && e.target != sid) } := by
    simp only [deleteSelected]
    rw [if_pos h]
  rw [hd]
  constructor
  · intro e he
    simp only [List.mem_filter, Bool.and_eq_true, bne_iff_ne, ne_eq] at he
    exact ⟨he.2.1, he.2.2⟩
  · obtain ⟨n, hn, hp⟩ := List.any_eq_true.mp h
    exact List.length_eraseP_of_mem hn hp

/-- C2 witness: deleting nodeB from the concrete two-node diagram leaves
no edge incident to it and exactly one node. -/
theorem deleteNode_cascade_witness :
    (∀ e ∈ (deleteSelected (some "node-1") diagC2).edges,
        e.source ≠ "node-1" ∧ e.target ≠ "node-1") ∧
    (deleteSelected (some "node-1") diagC2).nodes.length =
      diagC2.nodes.length - 1 :=
  deleteNode_cascade diagC2 "node-1" (by decide)

/-- A reachable history state produced by commit, commit, undo, redo
from a one-node initial diagram: the live diagram is diagABC but the
undo-stack top is the stale pre-redo snapshot diagAB. -/
def histStale : HistoryState :=
  { diagram := diagABC, historyStack := [diagA, diagAB, diagAB],
    redoStack := [] }

/-- C1 counterexample: histStale is reachable (init, commit diagAB,
commit diagABC, undo, redo) and has undo-stack depth 3 ≥ 2, yet undo
followed by redo leaves the live diagram at diagAB, not the pre-undo
diagABC: for reachable states in general the claim fails. -/
theorem undo_redo_counterexample :
    Reachable histStale ∧ 2 ≤ histStale.historyStack.length ∧
      (redo (undo histStale)).diagram ≠ histStale.diagram := by
  refine ⟨?_, by decide, by decide⟩
  have h : histStale =
      redo (undo (saveHistory
        { (saveHistory { (initState diagA) with diagram := diagAB }) with
          diagram := diagABC })) := by decide
  rw [h]
  exact Reachable.redoStep (Reachable.undoStep
    (Reachable.mutateCommit diagABC (Reachable.mutateCommit diagAB
      (Reachable.init diagA))))

/-- C1 (amended): for every history state whose undo-stack top equals
the live diagram (as after any commit) and whose undo stack has at least
two entries, undo followed immediately by redo restores a diagram
structurally identical to the one before the undo. -/
theorem undo_redo_restores (s : HistoryState)
    (hlen : 2 ≤ s.historyStack.length)
    (htop : s.historyStack.getLast? = some s.diagram) :
    (redo (undo s)).diagram = s.diagram := by
  have h1 : ¬ s.historyStack.length ≤ 1 := by omega
  have hu : undo s =
      { diagram := s.historyStack.dropLast.getLast?.getD emptyDiagram,
        historyStack := s.historyStack.dropLast,
        redoStack := s.redoStack ++
          [s.historyStack.getLast?.getD emptyDiagram] } := by
    rw [undo, if_neg h1]
  rw [hu, redo, if_neg (by simp)]
  simp [List.getLast?_concat, htop]

/-- A two-deep committed history state used as the C1 witness input. -/
def histEven : HistoryState :=
  { diagram := diagAB, historyStack := [diagA, diagAB], redoStack := [] }

/-- C1 witness: the amended round trip at the concrete state histEven. -/
theorem undo_redo_restores_witness :
    2 ≤ histEven.historyStack.length ∧
    histEven.historyStack.getLast? = some histEven.diagram ∧
    (redo (undo histEven)).diagram = histEven.diagram :=
  ⟨by decide, by decide, undo_redo_restores histEven (by decide) (by decide)⟩

/-- Any sequence of commits keeps the undo stack within capacity. -/
theorem applyCommits_length_le (ds : List Diagram) (s : HistoryState)
    (h : s.historyStack.length ≤ HISTORY_LIMIT) :
    (applyCommits s ds).historyStack.length ≤ HISTORY_LIMIT := by
  induction ds generalizing s with
  | nil => exact h
  | cons d ds ih => exact ih _ (saveHistory_length_le _ h)

/-- C3: for every sequence of commits from the initial history state the
undo stack never exceeds HISTORY_LIMIT = 50 entries, and a commit from a
full stack whose top differs from the live diagram discards exactly the
oldest (first-pushed) entry while appending the new one. -/
theorem history_capacity (d0 : Diagram) (ds : List Diagram)
    (s : HistoryState) :
    (applyCommits (initState d0) ds).historyStack.length ≤ HISTORY_LIMIT ∧
    (s.historyStack.length = HISTORY_LIMIT →
      s.historyStack.getLast? ≠ some s.diagram →
      (saveHistory s).historyStack = s.historyStack.tail ++ [s.diagram]) := by
  constructor
  · apply applyCommits_length_le
    have hin : (initState d0).historyStack = [d0] := by
      simp [initState, saveHistory, saveHistoryP, HISTORY_LIMIT]
    rw [hin]
    simp [HISTORY_LIMIT]
  · intro hlen hne
    unfold saveHistory saveHistoryP
    rw [if_pos (Or.inr hne)]
    show (if HISTORY_LIMIT < (s.historyStack ++ [s.diagram]).length
        then (s.historyStack ++ [s.diagram]).tail
        else (s.historyStack ++ [s.diagram])) =
      s.historyStack.tail ++ [s.diagram]
    rw [if_pos (by simp [hlen])]
    cases hl : s.historyStack with
    | nil => rw [hl] at hlen; simp [HISTORY_LIMIT] at hlen
    | cons a as => simp

/-- A history state whose undo stack is exactly at capacity. -/
def histFull : HistoryState :=
  { diagram := diagAB, historyStack := List.replicate 50 diagA,
    redoStack := [] }

/-- C3 witness: the capacity bound after the concrete commit sequence,
and the FIFO discard at the concrete full state histFull. -/
theorem history_capacity_witness :
    (applyCommits (initState diagA) [diagAB]).historyStack.length ≤
      HISTORY_LIMIT ∧
    (saveHistory histFull).historyStack =
      histFull.historyStack.tail ++ [histFull.diagram] :=
  ⟨(history_capacity diagA [diagAB] histFull).1,
   (history_capacity diagA [diagAB] histFull).2 (by decide) (by decide)⟩

/-- C4: when the serialized current diagram equals the top undo-stack
entry, commit is a no-op: state unchanged (no push, redo stack intact)
and the persistence branch not taken; consequently two consecutive
commits with no intervening mutation behave as one. -/
theorem commit_idempotent (s : HistoryState) :
    (s.historyStack.getLast? = some s.diagram → saveHistoryP s = (s, false)) ∧
    saveHistory (saveHistory s) = saveHistory s := by
  refine ⟨saveHistoryP_no_push s, ?_⟩
  have htop : (saveHistory s).historyStack.getLast? =
      some (saveHistory s).diagram := by
    rw [saveHistory_diagram]
    exact saveHistory_top s
  show (saveHistoryP (saveHistory s)).1 = saveHistory s
  rw [saveHistoryP_no_push _ htop]

/-- C4 witness: the no-op commit at the concrete committed state histEven. -/
theorem commit_idempotent_witness :
    saveHistoryP histEven = (histEven, false) ∧
    saveHistory (saveHistory histEven) = saveHistory histEven :=
  ⟨(commit_idempotent histEven).1 (by decide), (commit_idempotent histEven).2⟩

/-- C9: after a redo whose restored diagram differs from the pre-redo
diagram, the undo-stack top is the pre-redo snapshot rather than the
restored one, so the invariant top-equals-current fails and an immediate
commit with no intervening mutation takes the pushing branch. -/
theorem redo_stale_top (s : HistoryState) (next : Diagram)
    (h : s.redoStack.getLast? = some next) (hne : next ≠ s.diagram) :
    (redo s).diagram = next ∧
    (redo s).historyStack.getLast? = some s.diagram ∧
    (redo s).historyStack.getLast? ≠ some (redo s).diagram ∧
    (saveHistoryP (redo s)).2 = true := by
  have hnil : s.redoStack ≠ [] := by
    intro hnil
    rw [hnil] at h
    simp at h
  have hr : redo s =
      { diagram := s.redoStack.getLast?.getD emptyDiagram,
        historyStack := s.historyStack ++ [s.diagram],
        redoStack := s.redoStack.dropLast } := by
    rw [redo, if_neg (by simp [hnil])]
  have hd : s.redoStack.getLast?.getD emptyDiagram = next := by
    rw [h]
    rfl
  rw [hr]
  refine ⟨hd, List.getLast?_concat _, ?_, ?_⟩
  · rw [List.getLast?_concat, hd]
    intro hcon
    exact hne (Option.some_inj.mp hcon).symm
  · unfold saveHistoryP
    rw [if_pos]
    right
    show (s.historyStack ++ [s.diagram]).getLast? ≠
      some (s.redoStack.getLast?.getD emptyDiagram)
    rw [List.getLast?_concat, hd]
    intro hcon
    exact hne (Option.some_inj.mp hcon).symm

/-- A committed state with one redoable snapshot diagABC. -/
def histRedoable : HistoryState :=
  { diagram := diagAB, historyStack := [diagA, diagAB],
    redoStack := [diagABC] }

/-- C9 witness: the stale-top behavior at the concrete state histRedoable. -/
theorem redo_stale_top_witness :
    (redo histRedoable).diagram = diagABC ∧
    (redo histRedoable).historyStack.getLast? = some histRedoable.diagram ∧
    (redo histRedoable).historyStack.getLast? ≠
      some (redo histRedoable).diagram ∧
    (saveHistoryP (redo histRedoable)).2 = true :=
  redo_stale_top histRedoable diagABC (by decide) (by decide)

/-- C5: when a connect gesture is released, if the release point lies
strictly inside the bounding box of some node other than the source,
the first such node in insertion order is hit and exactly one new edge
from the source to it with empty label is appended; if the point lies
inside no such node, the diagram is unchanged. -/
theorem finalize_connection_spec (d : Diagram) (src : Node) (px py : ℤ)
    (eid : String) :
    (∀ t, d.nodes.find? (connectHit src.id px py) = some t →
        connectHit src.id px py t = true ∧
        (∃ l₁ l₂, d.nodes = l₁ ++ t :: l₂ ∧
          ∀ b ∈ l₁, connectHit src.id px py b = false) ∧
        (finalizeConnection src px py eid d).edges =
          d.edges ++
            [{ id := eid, source := src.id, target := t.id, label := "" }] ∧
        (finalizeConnection src px py eid d).nodes = d.nodes) ∧
    ((∀ n ∈ d.nodes, connectHit src.id px py n = false) →
        finalizeConnection src px py eid d = d) := by
  constructor
  · intro t ht
    refine ⟨List.find?_some ht, find?_first _ _ _ ht, ?_, ?_⟩ <;>
      simp [finalizeConnection, ht]
  · intro hmiss
    have hnone : d.nodes.find? (connectHit src.id px py) = none :=
      List.find?_eq_none.mpr (fun a ha => by simp [hmiss a ha])
    simp [finalizeConnection, hnone]

/-- A node whose box strictly contains the release point (510, 410). -/
def nodeFar : Node :=
  { id := "node-9", type := "process", x := 500, y := 400,
    width := 160, height := 60, label := "N1" }

/-- Source node plus the far target node. -/
def diagConnect : Diagram := { nodes := [nodeA, nodeFar], edges := [] }

/-- C5 witness: releasing at (510, 410) over nodeFar appends exactly the
edge from nodeA to nodeFar with empty label. -/
theorem finalize_connection_witness :
    connectHit nodeA.id 510 410 nodeFar = true ∧
    (∃ l₁ l₂, diagConnect.nodes = l₁ ++ nodeFar :: l₂ ∧
      ∀ b ∈ l₁, connectHit nodeA.id 510 410 b = false) ∧
    (finalizeConnection nodeA 510 410 "edge-9" diagConnect).edges =
      diagConnect.edges ++
        [{ id := "edge-9", source := nodeA.id, target := nodeFar.id,
           label := "" }] ∧
    (finalizeConnection nodeA 510 410 "edge-9" diagConnect).nodes =
      diagConnect.nodes :=
  (finalize_connection_spec diagConnect nodeA 510 410 "edge-9").1 nodeFar
    (by decide)

/-- C6: during a drag at zoom 1, every pointer-move sets the node
position to snap of the pointer model position minus the offset
recorded at gesture start, which for a pointer delta (dx, dy) equals
snap(x + dx), snap(y + dy) component-wise; in particular a node at
(320, 150) dragged by (13, 27) lands at (330, 180). -/
theorem drag_move_snap (n : Node) (rl rt cx cy dx dy offX offY px py : ℤ)
    (hoff : (offX, offY) = dragStartOffset (getSVGCoords cx cy rl rt).1
      (getSVGCoords cx cy rl rt).2 n)
    (hp : (px, py) = getSVGCoords (cx + dx) (cy + dy) rl rt) :
    (dragMove offX offY px py n).x = snap (n.x + dx) ∧
    (dragMove offX offY px py n).y = snap (n.y + dy) ∧
    (n.x = 320 → n.y = 150 → dx = 13 → dy = 27 →
      (dragMove offX offY px py n).x = 330 ∧
      (dragMove offX offY px py n).y = 180) := by
  have h1 : offX = (cx - rl) - n.x := by
    simpa [dragStartOffset, getSVGCoords] using congrArg Prod.fst hoff
  have h2 : offY = (cy - rt) - n.y := by
    simpa [dragStartOffset, getSVGCoords] using congrArg Prod.snd hoff
  have h3 : px = (cx + dx) - rl := by
    simpa [getSVGCoords] using congrArg Prod.fst hp
  have h4 : py = (cy + dy) - rt := by
    simpa [getSVGCoords] using congrArg Prod.snd hp
  have hx : (dragMove offX offY px py n).x = snap (n.x + dx) := by
    show snap (px - offX) = snap (n.x + dx)
    rw [h1, h3]
    congr 1
    ring
  have hy : (dragMove offX offY px py n).y = snap (n.y + dy) := by
    show snap (py - offY) = snap (n.y + dy)
    rw [h2, h4]
    congr 1
    ring
  refine ⟨hx, hy, ?_⟩
  intro e1 e2 e3 e4
  constructor
  · rw [hx, e1, e3]
    decide
  · rw [hy, e2, e4]
    decide

/-- The seeded default node position of the drag scenario. -/
def nodeDrag : Node :=
  { id := "node-5", type := "lead-source", x := 320, y := 150,
    width := 180, height := 50, label := "Start Source" }

/-- C6 witness: the concrete scenario; pointer down at (400, 170) in a
zero-origin canvas records offset (80, 20), the move to (413, 197)
lands the node at (330, 180). -/
theorem drag_move_snap_witness :
    (dragMove 80 20 413 197 nodeDrag).x = 330 ∧
    (dragMove 80 20 413 197 nodeDrag).y = 180 :=
  (drag_move_snap nodeDrag 0 0 400 170 13 27 80 20 413 197
    (by decide) (by decide)).2.2 rfl rfl rfl rfl

/-- Reduction of closeEditors: open node session, item still present. -/
theorem closeEditors_node_found (i text : String) (s : HistoryState)
    (h : s.diagram.nodes.any (fun n => n.id == i) = true) :
    closeEditors (some ⟨EditKind.node, i⟩) text s =
      (saveHistory { s with diagram := { s.diagram with nodes :=
        (updateFirst (fun n => n.id == i) (fun n => { n with label := text })
          s.diagram.nodes) } }, none) := by
  simp [closeEditors, h]

/-- Reduction of closeEditors: open node session, item deleted. -/
theorem closeEditors_node_missing (i text : String) (s : HistoryState)
    (h : s.diagram.nodes.any (fun n => n.id == i) = false) :
    closeEditors (some ⟨EditKind.node, i⟩) text s = (s, none) := by
  simp [closeEditors, h]

/-- Reduction of closeEditors: open edge session, item still present. -/
theorem closeEditors_edge_found (i text : String) (s : HistoryState)
    (h : s.diagram.edges.any (fun e => e.id == i) = true) :
    closeEditors (some ⟨EditKind.edge, i⟩) text s =
      (saveHistory { s with diagram := { s.diagram with edges :=
        (updateFirst (fun e => e.id == i) (fun e => { e with label := text })
          s.diagram.edges) } }, none) := by
  simp [closeEditors, h]

/-- Reduction of closeEditors: open edge session, item deleted. -/
theorem closeEditors_edge_missing (i text : String) (s : HistoryState)
    (h : s.diagram.edges.any (fun e => e.id == i) = false) :
    closeEditors (some ⟨EditKind.edge, i⟩) text s = (s, none) := by
  simp [closeEditors, h]

/-- C8: closing an open edit session via the commit path writes the
editor text into the referenced node's or edge's label and then commits
to history; if the referenced item no longer exists, both the write and
the commit are skipped; in every case the session is cleared afterward. -/
theorem close_editors_spec (editing : Option EditingItem) (text : String)
    (s : HistoryState) :
    (closeEditors editing text s).2 = none ∧
    closeEditors none text s = (s, none) ∧
    (∀ it, editing = some it → it.kind = EditKind.node →
      s.diagram.nodes.any (fun n => n.id == it.id) = false →
      closeEditors editing text s = (s, none)) ∧
    (∀ it, editing = some it → it.kind = EditKind.edge →
      s.diagram.edges.any (fun e => e.id == it.id) = false →
      closeEditors editing text s = (s, none)) ∧
    (∀ it, editing = some it → it.kind = EditKind.node →
      s.diagram.nodes.any (fun n => n.id == it.id) = true →
      ∃ d1 : Diagram,
        closeEditors editing text s =
          (saveHistory { s with diagram := d1 }, none) ∧
        (d1.nodes.find? (fun n => n.id == it.id)).map Node.label =
          some text ∧
        d1.edges = s.diagram.edges) ∧
    (∀ it, editing = some it → it.kind = EditKind.edge →
      s.diagram.edges.any (fun e => e.id == it.id) = true →
      ∃ d1 : Diagram,
        closeEditors editing text s =
          (saveHistory { s with diagram := d1 }, none) ∧
        (d1.edges.find? (fun e => e.id == it.id)).map Edge.label =
          some text ∧
        d1.nodes = s.diagram.nodes) := by
  refine ⟨?_, rfl, ?_, ?_, ?_, ?_⟩
  · cases editing with
    | none => rfl
    | some it =>
      obtain ⟨k, i⟩ := it
      cases k with
      | node =>
        cases hc : s.diagram.nodes.any (fun n => n.id == i) with
        | true => rw [closeEditors_node_found i text s hc]
        | false => rw [closeEditors_node_missing i text s hc]
      | edge =>
        cases hc : s.diagram.edges.any (fun e => e.id == i) with
        | true => rw [closeEditors_edge_found i text s hc]
        | false => rw [closeEditors_edge_missing i text s hc]
  · rintro ⟨k, i⟩ rfl hk hmiss
    cases hk
    exact closeEditors_node_missing i text s hmiss
  · rintro ⟨k, i⟩ rfl hk hmiss
    cases hk
    exact closeEditors_edge_missing i text s hmiss
  · rintro ⟨k, i⟩ rfl hk hfound
    cases hk
    dsimp only at hfound ⊢
    refine ⟨_, closeEditors_node_found i text s hfound, ?_, rfl⟩
    rw [find?_updateFirst (fun n => n.id == i)
      (fun n => { n with label := text }) (fun a ha => ha) s.diagram.nodes]
    have hsome : (s.diagram.nodes.find? (fun n => n.id == i)).isSome := by
      obtain ⟨a, ha, hpa⟩ := List.any_eq_true.mp hfound
      exact List.find?_isSome.mpr ⟨a, ha, hpa⟩
    obtain ⟨b, hb⟩ := Option.isSome_iff_exists.mp hsome
    rw [hb]
    rfl
  · rintro ⟨k, i⟩ rfl hk hfound
    cases hk
    dsimp only at hfound ⊢
    refine ⟨_, closeEditors_edge_found i text s hfound, ?_, rfl⟩
    rw [find?_updateFirst (fun e => e.id == i)
      (fun e => { e with label := text }) (fun a ha => ha) s.diagram.edges]
    have hsome : (s.diagram.edges.find? (fun e => e.id == i)).isSome := by
      obtain ⟨a, ha, hpa⟩ := List.any_eq_true.mp hfound
      exact List.find?_isSome.mpr ⟨a, ha, hpa⟩
    obtain ⟨b, hb⟩ := Option.isSome_iff_exists.mp hsome
    rw [hb]
    rfl

/-- A committed state over the two-node three-edge diagram, with an
edge edit session about to close. -/
def histEdit : HistoryState :=
  { diagram := diagC2, historyStack := [diagC2], redoStack := [] }

/-- C8 witness: closing an edge session with the text Yes writes Yes
into that edge's label, commits, and clears the session. -/
theorem close_editors_witness :
    ∃ d1 : Diagram,
      closeEditors (some ⟨EditKind.edge, "edge-1"⟩) "Yes" histEdit =
        (saveHistory { histEdit with diagram := d1 }, none) ∧
      (d1.edges.find? (fun e => e.id == "edge-1")).map Edge.label =
        some "Yes" ∧
      d1.nodes = histEdit.diagram.nodes :=
  (close_editors_spec (some ⟨EditKind.edge, "edge-1"⟩) "Yes"
    histEdit).2.2.2.2.2 ⟨EditKind.edge, "edge-1"⟩ rfl rfl (by decide)

/-- The type-derived default label is nonempty whenever the type string
is nonempty. -/
theorem defaultLabel_ne_empty (type : String) (h : type ≠ "") :
    defaultLabel type ≠ "" := by
  unfold defaultLabel
  split_ifs <;> try decide
  unfold capitalize
  cases ht : type.data with
  | nil =>
    exfalso
    apply h
    cases type with
    | mk l =>
      simp only at ht
      rw [ht]
  | cons c cs =>
    intro hcon
    have hdata := congrArg String.data hcon
    simp at hdata

/-- C10 counterexample: with the empty type string and an absent label
argument, createNode produces the empty-string label (the capitalized
empty type), so a created node's label can be the empty string. -/
theorem create_node_empty_label_counterexample :
    (createNode "" 0 0 none "node-0").label = "" := by decide

/-- C10 (amended): for every nonempty type and every position, an
absent or empty-string label argument resolves to the type-derived
default label, and the created node's label is never the empty string. -/
theorem create_node_default_label (type : String) (x y : ℤ) (id : String)
    (lab : Option String) (h : type ≠ "") :
    (createNode type x y none id).label = defaultLabel type ∧
    (createNode type x y (some "") id).label = defaultLabel type ∧
    (createNode type x y lab id).label ≠ "" := by
  refine ⟨rfl, ?_, ?_⟩
  · show (if ("" : String) = "" then defaultLabel type else "") =
      defaultLabel type
    rw [if_pos rfl]
  · cases lab with
    | none => exact defaultLabel_ne_empty type h
    | some l =>
      by_cases hl : l = ""
      · subst hl
        show (if ("" : String) = "" then defaultLabel type else "") ≠ ""
        rw [if_pos rfl]
        exact defaultLabel_ne_empty type h
      · show (if l = "" then defaultLabel type else l) ≠ ""
        rw [if_neg hl]
        exact hl

/-- C10 witness: an unknown nonempty type with an absent label gets the
capitalized type as label, which is nonempty. -/
theorem create_node_default_label_witness :
    (createNode "workflow" 5 7 none "node-7").label =
      defaultLabel "workflow" ∧
    (createNode "workflow" 5 7 (some "") "node-7").label =
      defaultLabel "workflow" ∧
    (createNode "workflow" 5 7 none "node-7").label ≠ "" :=
  create_node_default_label "workflow" 5 7 "node-7" none (by decide)
